import Mathlib

/-!
Shallow embedding of the blackjack repository (src/blackjack.py, src/deck.py)
and verification of the frozen claims about it.

Conventions of the embedding:
* Python lists are Lean `List`s; `list.pop()` removes the LAST element.
* Python exceptions are modelled with `Except` (the raised exception as the
  error) or, where the only failure is an aborting exception, with `Option`.
* Chip balances are `ℚ` (the Python code mixes ints with `0.5 * cost`).
* The card-drawing loops are written with explicit fuel; a fuel of `0`
  yields `none`, and every theorem about a run supplies enough fuel.
-/

namespace Blackjack

/-- Card rank, the thirteen entries of the `values` list in
`Deck._generate_backup_pile`. -/
inductive Value where
  | two | three | four | five | six | seven | eight | nine | ten
  | jack | queen | king | ace
deriving DecidableEq, Repr

/-- Card suit, the four entries of the `suits` list in
`Deck._generate_backup_pile`. -/
inductive Suit where
  | spades | diamonds | hearts | clubs
deriving DecidableEq, Repr

/-- `Card` from blackjack.py: rank, suit and the display-only `top_down`
flag.  The `code` string is omitted: it is computed from value and suit
and never influences behaviour beyond `__eq__`, which it cannot change. -/
structure Card where
  value : Value
  suit : Suit
  topDown : Bool := false
deriving DecidableEq, Repr

/-- `Card.__eq__`: equality by value and suit (`code` is determined by
them); `top_down` is ignored. -/
def pyCardEq (a b : Card) : Bool :=
  a.value == b.value && a.suit == b.suit

/-- Python `card in pile` membership using `Card.__eq__`. -/
def pyContains (pile : List Card) (c : Card) : Bool :=
  pile.any (pyCardEq c)

/-- Python `pile.remove(card)`: drop the first element equal to `card`
(callers guard against the absent case). -/
def pyRemove (pile : List Card) (c : Card) : List Card :=
  match pile with
  | [] => []
  | x :: xs => if pyCardEq c x then xs else x :: pyRemove xs c

/-- The `values` list of `Deck._generate_backup_pile`. -/
def valuesList : List Value :=
  [.two, .three, .four, .five, .six, .seven, .eight, .nine, .ten,
   .jack, .queen, .king, .ace]

/-- The `suits` list of `Deck._generate_backup_pile`. -/
def suitsList : List Suit :=
  [.spades, .diamonds, .hearts, .clubs]

/-- `Deck._generate_backup_pile`: one 52-card pile, value-major order. -/
def generateBackupPile : List Card :=
  (valuesList.map (fun v => suitsList.map (fun s => Card.mk v s false))).flatten

/-- The `_backup_deck` built in `Deck.__init__`:
`itertools.chain(*[pile for _ in range(deck_count)])`. -/
def initialBackupDeck (deckCount : Nat) : List Card :=
  (List.replicate deckCount generateBackupPile).flatten

/-- Python `pile.pop()`: remove and return the LAST element; `none`
when the list is empty (where Python raises `IndexError`). -/
def drawCard (d : List Card) : Option (Card × List Card) :=
  match d.getLast? with
  | none => none
  | some c => some (c, d.dropLast)

/-- `Hand` from blackjack.py: card list plus the two per-round flags. -/
structure Hand where
  cards : List Card
  isDoubleDown : Bool := false
  isSurrendered : Bool := false
deriving DecidableEq, Repr

/-- `Hand.add_card`: append to the card list. -/
def Hand.addCard (h : Hand) (c : Card) : Hand :=
  { h with cards := h.cards ++ [c] }

/-- `Hand.double_down`: add the card, then set `is_double_down`. -/
def Hand.doubleDown (h : Hand) (c : Card) : Hand :=
  { h.addCard c with isDoubleDown := true }

/-- Rank points as assigned by the first loop of `Hand.score`:
JACK/QUEEN/KING count 10, ACE initially counts 1, numeric cards count
their face value. -/
def cardPoints : Value → Nat
  | .jack => 10
  | .queen => 10
  | .king => 10
  | .ace => 1
  | .two => 2
  | .three => 3
  | .four => 4
  | .five => 5
  | .six => 6
  | .seven => 7
  | .eight => 8
  | .nine => 9
  | .ten => 10

/-- The second loop of `Hand.score`: run `score += 10 if score + 10 <= 21
else 0` once per ace held. -/
def promoteAces : Nat → Nat → Nat
  | 0, s => s
  | n + 1, s => promoteAces n (if s + 10 ≤ 21 then s + 10 else s)

/-- `Hand.score`: base points with every ace as 1, then the ace-promotion
loop, run once per ace. -/
def Hand.score (h : Hand) : Nat :=
  promoteAces (h.cards.countP (fun c => c.value == Value.ace))
    (h.cards.foldl (fun s c => s + cardPoints c.value) 0)

/-- `Hand.is_blackjack`: exactly two cards scoring 21. -/
def Hand.isBlackjack (h : Hand) : Bool :=
  h.cards.length == 2 && h.score == 21

/-- `Hand.can_split`: exactly two cards of equal rank. -/
def Hand.canSplit (h : Hand) : Bool :=
  match h.cards with
  | [a, b] => a.value == b.value
  | _ => false

/-- The key of the `max(..., key=lambda x: x.value == 'ACE')` call in
`Hand.is_soft_hand` (Python booleans compare with False < True). -/
def aceKey (c : Card) : Nat :=
  if c.value == Value.ace then 1 else 0

/-- Python `max` with a key over a non-empty list: keep the first element
whose key is maximal, scanning left to right. -/
def pyMaxByAceKey (best : Card) : List Card → Card
  | [] => best
  | c :: cs => pyMaxByAceKey (if aceKey best < aceKey c then c else best) cs

/-- `Hand.is_soft_hand` as written in the source: take the max of the
cards keyed by "is an ace" and test whether that card is an ace; `False`
on an empty hand. -/
def Hand.isSoftHand (h : Hand) : Bool :=
  match h.cards with
  | [] => false
  | c :: cs => (pyMaxByAceKey c cs).value == Value.ace

/-- `Hand.split`: requires `can_split` (else Python raises `ValueError`,
here `none`); pops the last card into a fresh hand. -/
def Hand.split (h : Hand) : Option (Hand × Hand) :=
  if h.canSplit then
    match h.cards.getLast? with
    | some c => some ({ h with cards := h.cards.dropLast }, { cards := [c] })
    | none => none
  else none

/-- The dealer loop guard of `GameController.play_round`:
`house.score <= 16 or (house.score <= 17 and house.is_soft_hand)`. -/
def dealerHits (h : Hand) : Bool :=
  decide (h.score ≤ 16) || (decide (h.score ≤ 17) && h.isSoftHand)

/-- Python exceptions that the two `draw_card` implementations can raise. -/
inductive PyExc where
  | keyError | valueError | indexError | requestException
deriving DecidableEq, Repr

/-- Outcome of the remote draw request, as seen by `draw_card`:
the GET/`.json()` raised (network failure), the body decoded to invalid
JSON, the decoded dict had no usable `cards` key, or it carried a
(possibly empty) card list. -/
inductive RemoteOutcome where
  | netError
  | badJson
  | noCardsKey
  | respCards (cards : List Card)
deriving DecidableEq, Repr

/-- blackjack.py `Deck.draw_card`, local branch (`self.id` is `None`,
which is the constructed state since the remote request in `__init__` is
commented out): `card = self._backup_deck.pop()`, raising `IndexError`
on an empty pile. -/
def bjDrawLocal (pile : List Card) : Except PyExc (Card × List Card) :=
  match drawCard pile with
  | none => .error .indexError
  | some (c, rest) => .ok (c, rest)

/-- blackjack.py `Deck.draw_card`, remote branch (`self.id` held).
`_request` only catches `KeyError` (the `except A or B or C` idiom keeps
just the first class), so a network failure or malformed JSON body
propagates to the caller; a missing `cards` key raises `KeyError`
(outside the `except ValueError`); an empty `cards` list returns `None`
with no fallback; a card absent from the local pile raises `ValueError`
inside `remove`, which is caught and answered by popping the local
pile (raising `IndexError` if that pile is empty). -/
def bjDrawRemote (r : RemoteOutcome) (pile : List Card) :
    Except PyExc (Option Card × List Card) :=
  match r with
  | .netError => .error .requestException
  | .badJson => .error .valueError
  | .noCardsKey => .error .keyError
  | .respCards [] => .ok (none, pile)
  | .respCards (c :: _) =>
    if pyContains pile c then .ok (some c, pyRemove pile c)
    else
      match drawCard pile with
      | some (c', rest) => .ok (some c', rest)
      | none => .error .indexError

/-- deck.py `Deck.draw_card` with `self.id = None`: skip the remote
branch, pop the local pile if non-empty, else return `None`. -/
def deckpyDrawLocal (pile : List Card) : Option Card × List Card :=
  match drawCard pile with
  | none => (none, pile)
  | some (c, rest) => (some c, rest)

/-- deck.py `Deck.draw_card` with `self.id` held.  `_request` is a bare
`requests.get(url).json()`, so network failures and malformed bodies
propagate; `result['cards'][0]` raises `KeyError` on a missing key and
`IndexError` on an empty card list; a card absent from the local pile is
discarded (`c = None`) and answered from the local pile, or `None` when
that pile is empty. -/
def deckpyDrawRemote (r : RemoteOutcome) (pile : List Card) :
    Except PyExc (Option Card × List Card) :=
  match r with
  | .netError => .error .requestException
  | .badJson => .error .valueError
  | .noCardsKey => .error .keyError
  | .respCards [] => .error .indexError
  | .respCards (c :: _) =>
    if pyContains pile c then .ok (some c, pyRemove pile c)
    else
      match drawCard pile with
      | some (c', rest) => .ok (some c', rest)
      | none => .ok (none, pile)

/-- Iterated local draw on the deck.py supply (each draw pops the last
card; a draw on the empty pile leaves it empty). -/
def drawManyLocal : Nat → List Card → List Card
  | 0, pile => pile
  | k + 1, pile => drawManyLocal k (deckpyDrawLocal pile).2

/-- Modelled from the spec: the `Move` enum lives in `game_view.py`,
which is not under src/; its five members named by the spec's action
machine plus a stand-in for any unrecognized member (the final `else`
branch of the move dispatch). -/
inductive Move where
  | hit | split | double_down | stand | surrender | unknown
deriving DecidableEq, Repr

/-- `GameController.BUY_IN_COST`. -/
def BUY_IN_COST : ℚ := 10

/-- The per-player state the round loop mutates: the hand list and the
chip balance. -/
structure PState where
  hands : List Hand
  coins : ℚ
deriving DecidableEq, Repr

/-- The `while len(h.cards) < 2` refill loop run after a split, for one
hand; fuel 2 is exact since at most two cards are ever missing. -/
def fillHand (fuel : Nat) (h : Hand) (d : List Card) :
    Option (Hand × List Card) :=
  match fuel with
  | 0 => if h.cards.length < 2 then none else some (h, d)
  | f + 1 =>
    if h.cards.length < 2 then
      match drawCard d with
      | none => none
      | some (c, d') => fillHand f (h.addCard c) d'
    else some (h, d)

/-- The `for h in player.hands: while len(h.cards) < 2` refill loop over
the whole hand list. -/
def refillAll : List Hand → List Card → Option (List Hand × List Card)
  | [], d => some ([], d)
  | h :: hs, d =>
    match fillHand 2 h d with
    | none => none
    | some (h', d') =>
      match refillAll hs d' with
      | none => none
      | some (hs', d'') => some (h' :: hs', d'')

/-- One dispatch of the requested move inside the player-turn loop of
`GameController.play_round` (the body before the bust check), acting on
the hand at index `i`.  Returns the new player state, the new deck and
the `playing` flag; `none` when Python would raise (out-of-range hand
access or popping an empty deck). -/
def stepMove (i : Nat) (mv : Move) (p : PState) (d : List Card) :
    Option (PState × List Card × Bool) :=
  match p.hands[i]? with
  | none => none
  | some cur =>
    match mv with
    | .hit =>
      match drawCard d with
      | none => none
      | some (c, d') =>
        some ({ p with hands := p.hands.set i (cur.addCard c) }, d', true)
    | .split =>
      if cur.canSplit then
        match cur.split with
        | none => none
        | some (h1, h2) =>
          match refillAll (p.hands.set i h1 ++ [h2]) d with
          | none => none
          | some (hs, d') =>
            some (⟨hs, p.coins - BUY_IN_COST⟩, d', true)
      else some (p, d, true)
    | .double_down =>
      match drawCard d with
      | none => none
      | some (c, d') =>
        some (⟨p.hands.set i (cur.doubleDown c), p.coins - BUY_IN_COST⟩,
          d', false)
    | .stand => some (p, d, false)
    | .surrender =>
      some ({ p with hands := p.hands.set i { cur with isSurrendered := true } },
        d, false)
    | .unknown => some (p, d, false)

/-- One decision request, as logged by the turn loop: which hand index
was being resolved, the hand object passed to `Player.play_move`, the
hand at the resolved index at that moment and the first hand at that
moment. -/
structure TraceEntry where
  resolving : Nat
  queried : Hand
  current : Hand
  first : Hand
deriving DecidableEq, Repr

/-- The inner `while playing` loop of `GameController.play_round` for the
hand at index `i`.  Faithful to line 273 of the source, the strategy is
asked about `player.hands[0]`, not the hand being resolved; each request
is appended to the trace.  After the move, `if hand.score > 21` clears
`playing`. -/
def playOne (σ : Hand → Move) (fuel i : Nat) (p : PState) (d : List Card)
    (tr : List TraceEntry) : Option (PState × List Card × List TraceEntry) :=
  match fuel with
  | 0 => none
  | f + 1 =>
    match p.hands[0]?, p.hands[i]? with
    | some fst, some cur =>
      let mv := σ fst
      let tr' := tr ++ [⟨i, fst, cur, fst⟩]
      match stepMove i mv p d with
      | none => none
      | some (p', d', playing) =>
        match p'.hands[i]? with
        | none => none
        | some cur' =>
          if playing && decide (cur'.score ≤ 21) then playOne σ f i p' d' tr'
          else some (p', d', tr')
    | _, _ => none

/-- The outer `for hand in player.hands` loop: Python iterates by index
over the growing list, so hands appended by a split are also resolved. -/
def playHands (σ : Hand → Move) (fuel i : Nat) (p : PState) (d : List Card)
    (tr : List TraceEntry) : Option (PState × List Card × List TraceEntry) :=
  match fuel with
  | 0 => none
  | f + 1 =>
    if i < p.hands.length then
      match playOne σ f i p d tr with
      | none => none
      | some (p', d', tr') => playHands σ f (i + 1) p' d' tr'
    else some (p, d, tr)

/-- A full player-turn phase for one player, starting at hand 0 with an
empty trace. -/
def playerTurn (σ : Hand → Move) (fuel : Nat) (p : PState) (d : List Card) :
    Option (PState × List Card × List TraceEntry) :=
  playHands σ fuel 0 p d []

/-- The settlement of one hand (the `elif` chain at the end of
`play_round`), as the amount credited to the player's balance, with the
ante unit as a parameter (`BUY_IN_COST` at the call site). -/
def payout (houseScore : Nat) (ante : ℚ) (h : Hand) : ℚ :=
  if h.isSurrendered then (1 / 2) * ante
  else if h.score = 21 ∧ h.isBlackjack then 3 * ante
  else if (houseScore < h.score ∧ h.score ≤ 21) ∨
      (houseScore > 21 ∧ 21 ≥ h.score) then
    (if h.isDoubleDown then ante * 4 else ante * 2)
  else if houseScore = h.score ∧ h.score ≤ 21 then
    (if ¬h.isDoubleDown then ante else ante * 2)
  else 0

/-- The dealer loop: draw while `dealerHits` holds, with fuel. -/
def dealerPlay (fuel : Nat) (h : Hand) (d : List Card) :
    Option (Hand × List Card) :=
  match fuel with
  | 0 => none
  | f + 1 =>
    if dealerHits h then
      match drawCard d with
      | none => none
      | some (c, d') => dealerPlay f (h.addCard c) d'
    else some (h, d)

/-- Result of a single-player round: final balance, final hands, final
house hand, remaining deck and the decision trace. -/
structure RoundOut where
  coins : ℚ
  hands : List Hand
  house : Hand
  deck : List Card
  trace : List TraceEntry
deriving DecidableEq, Repr

/-- `GameController.play_round` specialised to a table of one player,
keeping the source's order of deck accesses: ante, deal (player card,
house card, player card), player turns, the house's second card, the
dealer loop, settlement.  `none` when the table cannot play (balance
below the buy-in — Python's `return False`), the deck runs out
(Python raises) or the fuel is exhausted. -/
def playRoundSolo (σ : Hand → Move) (fuel : Nat) (coins : ℚ)
    (d : List Card) : Option RoundOut :=
  if coins < BUY_IN_COST then none
  else
    match drawCard d with
    | none => none
    | some (c1, d) =>
      match drawCard d with
      | none => none
      | some (ch1, d) =>
        match drawCard d with
        | none => none
        | some (c2, d) =>
          let hand0 : Hand := { cards := [c1, c2] }
          match playerTurn σ fuel ⟨[hand0], coins - BUY_IN_COST⟩ d with
          | none => none
          | some (p, d, tr) =>
            match drawCard d with
            | none => none
            | some (ch2, d) =>
              let house : Hand := { cards := [ch1, ch2] }
              match dealerPlay fuel house d with
              | none => none
              | some (house, d) =>
                some ⟨p.coins +
                    (p.hands.map (payout house.score BUY_IN_COST)).sum,
                  p.hands, house, d, tr⟩

/-- Modelled from the spec: `score()` as §4.2 words it — sum of rank
values with every ace as 1, then, one ace at a time, add 10 more if the
running total stays at most 21. -/
def specScore (h : Hand) : Nat :=
  (h.cards.filter (fun c => c.value == Value.ace)).foldl
    (fun t _ => if t + 10 ≤ 21 then t + 10 else t)
    ((h.cards.map (fun c => cardPoints c.value)).sum)

/-- Modelled from the spec: a soft hand contains an ace currently counted
as 11, i.e. an ace is present and promoting one (adding its 10-bonus to
the all-aces-as-1 total) does not exceed 21. -/
def specSoft (h : Hand) : Bool :=
  h.cards.any (fun c => c.value == Value.ace) &&
    decide ((h.cards.map (fun c => cardPoints c.value)).sum + 10 ≤ 21)

/-- Modelled from the spec: the dealer draws while score ≤ 16, or score
is 17 and the hand is soft in the spec's sense. -/
def specDealerHits (h : Hand) : Bool :=
  decide (h.score ≤ 16) || (decide (h.score = 17) && specSoft h)

/-! ## Helper lemmas on scoring and softness -/

theorem foldl_points (l : List Card) (s : Nat) :
    l.foldl (fun a c => a + cardPoints c.value) s
      = s + (l.map (fun c => cardPoints c.value)).sum := by
  induction l generalizing s with
  | nil => simp
  | cons c cs ih => simp [ih]; omega

theorem foldl_promote {α : Type} (l : List α) (s : Nat) :
    l.foldl (fun t _ => if t + 10 ≤ 21 then t + 10 else t) s
      = promoteAces l.length s := by
  induction l generalizing s with
  | nil => rfl
  | cons c cs ih =>
    rw [List.foldl_cons, List.length_cons]
    conv_rhs => rw [promoteAces]
    exact ih _

theorem score_eq_specScore (h : Hand) : h.score = specScore h := by
  unfold Hand.score specScore
  rw [foldl_promote, foldl_points, List.countP_eq_length_filter]
  simp

theorem pyMax_ace (l : List Card) (b : Card) :
    ((pyMaxByAceKey b l).value == Value.ace)
      = (b.value == Value.ace || l.any (fun c => c.value == Value.ace)) := by
  induction l generalizing b with
  | nil => simp [pyMaxByAceKey]
  | cons c cs ih =>
    rw [pyMaxByAceKey, ih]
    cases hbv : (b.value == Value.ace) <;> cases hcv : (c.value == Value.ace) <;>
      simp [aceKey, hbv, hcv, Bool.or_assoc]

theorem isSoftHand_eq_any (h : Hand) :
    h.isSoftHand = h.cards.any (fun c => c.value == Value.ace) := by
  match h with
  | ⟨[], dd, sr⟩ => rfl
  | ⟨c :: cs, dd, sr⟩ =>
    show ((pyMaxByAceKey c cs).value == Value.ace) = _
    rw [pyMax_ace]
    simp

/-! ## Claim C2: scoring -/

/-- Claim C2: `score()` is the sum of rank values (JACK/QUEEN/KING = 10,
numeric = face value, ACE = 1) plus, one ace at a time, an extra 10
whenever adding it keeps the running total at most 21; consequently
{ACE, ACE} scores 12 and {ACE, KING} scores 21 with `is_blackjack`
true. -/
theorem score_follows_soft_ace_promotion :
    (∀ h : Hand, h.score = specScore h) ∧
    (Hand.mk [⟨.ace, .spades, false⟩, ⟨.ace, .hearts, false⟩] false false).score
        = 12 ∧
    (Hand.mk [⟨.ace, .spades, false⟩, ⟨.king, .spades, false⟩] false false).score
        = 21 ∧
    (Hand.mk [⟨.ace, .spades, false⟩, ⟨.king, .spades, false⟩] false
        false).isBlackjack = true := by
  refine ⟨score_eq_specScore, ?_, ?_, ?_⟩ <;> decide

/-! ## Claim C4: soft hand -/

/-- Counterexample to claim C4: the hand {ACE, 10, 5} scores 16 with its
ace counted as 1 (its all-aces-as-1 total is 16 and the 10-bonus would
bust), so the spec's softness predicate is false on it, yet the source's
`is_soft_hand` — which only scans for the presence of an ace — is true. -/
theorem soft_hand_claim_cex :
    (Hand.mk [⟨.ace, .spades, false⟩, ⟨.ten, .spades, false⟩,
        ⟨.five, .spades, false⟩] false false).isSoftHand = true ∧
    specSoft (Hand.mk [⟨.ace, .spades, false⟩, ⟨.ten, .spades, false⟩,
        ⟨.five, .spades, false⟩] false false) = false ∧
    (Hand.mk [⟨.ace, .spades, false⟩, ⟨.ten, .spades, false⟩,
        ⟨.five, .spades, false⟩] false false).score = 16 := by
  decide

/-- Amended claim C4: `is_soft_hand` is true exactly when the hand
contains at least one ace, whether or not that ace is currently counted
as 11 (the 10-bonus check claimed by the spec is not performed). -/
theorem soft_hand_iff_contains_ace (h : Hand) :
    h.isSoftHand = true ↔ ∃ c ∈ h.cards, c.value = Value.ace := by
  rw [isSoftHand_eq_any]
  simp

/-! ## Claim C3: dealer stopping rule -/

/-- Counterexample to claim C3: the dealer hand {ACE, 6, 10} scores a
hard 17 (the spec's dealer rule stops on it), but the source's loop
guard is true on it, so the dealer draws. -/
theorem dealer_hard17_claim_cex :
    dealerHits (Hand.mk [⟨.ace, .spades, false⟩, ⟨.six, .spades, false⟩,
        ⟨.ten, .spades, false⟩] false false) = true ∧
    specDealerHits (Hand.mk [⟨.ace, .spades, false⟩, ⟨.six, .spades, false⟩,
        ⟨.ten, .spades, false⟩] false false) = false ∧
    (Hand.mk [⟨.ace, .spades, false⟩, ⟨.six, .spades, false⟩,
        ⟨.ten, .spades, false⟩] false false).score = 17 := by
  decide

/-- Amended claim C3: the dealer draws exactly while the score is ≤ 16,
or the score is 17 and the hand contains at least one ace (the source's
`is_soft_hand`, which does not check that the ace counts as 11); when
the guard is false the dealer loop stops without drawing.  In particular
the dealer draws on {ACE,6} (soft 17) and on {ACE,6,10} (hard 17 with an
ace), and stops on the ace-free hard 17 {10,7}. -/
theorem dealer_draw_rule :
    (∀ h : Hand, dealerHits h
        = (decide (h.score ≤ 16) ||
           (decide (h.score = 17) &&
             h.cards.any (fun c => c.value == Value.ace)))) ∧
    (∀ (f : Nat) (h : Hand) (d : List Card), dealerHits h = false →
        dealerPlay (f + 1) h d = some (h, d)) ∧
    dealerHits (Hand.mk [⟨.ace, .spades, false⟩, ⟨.six, .spades, false⟩]
        false false) = true ∧
    dealerHits (Hand.mk [⟨.ten, .spades, false⟩, ⟨.seven, .spades, false⟩]
        false false) = false ∧
    dealerHits (Hand.mk [⟨.ace, .spades, false⟩, ⟨.six, .spades, false⟩,
        ⟨.ten, .spades, false⟩] false false) = true := by
  refine ⟨?_, ?_, by decide, by decide, by decide⟩
  · intro h
    unfold dealerHits
    rw [isSoftHand_eq_any]
    by_cases h16 : h.score ≤ 16
    · simp [h16]
    · have h17 : decide (h.score ≤ 17) = decide (h.score = 17) :=
        decide_eq_decide.mpr (by omega)
      simp [h16, h17]
  · intro f h d hstop
    rw [dealerPlay, hstop]
    rfl

/-- Witness for the hypothesis-bearing part of `dealer_draw_rule`: the
dealer loop on the hard 17 {10,7} stops at once. -/
theorem dealer_draw_rule_witness :
    dealerPlay 1 (Hand.mk [⟨.ten, .spades, false⟩, ⟨.seven, .spades, false⟩]
        false false) [] =
      some (Hand.mk [⟨.ten, .spades, false⟩, ⟨.seven, .spades, false⟩]
        false false, []) :=
  dealer_draw_rule.2.1 0 _ [] (by decide)

/-! ## Claim C1: settlement -/

theorem score_of_isBlackjack {h : Hand} (hb : h.isBlackjack = true) :
    h.score = 21 := by
  unfold Hand.isBlackjack at hb
  simp only [Bool.and_eq_true, beq_iff_eq, Nat.beq_eq_true_eq] at hb
  exact hb.2

/-- Claim C1: settlement credits each hand by exactly one of the five
cases of the `elif` chain, taken in order — surrender pays half the
ante; otherwise a natural blackjack pays 3×ante; otherwise a live hand
that beats the dealer or survives a dealer bust pays 4×ante doubled /
2×ante plain; otherwise a push pays 2×ante doubled / 1×ante plain;
otherwise nothing.  With ante 10, {KING, ACE} against a dealer 17 pays
exactly 30. -/
theorem settlement_five_cases :
    (∀ (hs : Nat) (a : ℚ) (h : Hand), h.isSurrendered = true →
        payout hs a h = (1 / 2) * a) ∧
    (∀ (hs : Nat) (a : ℚ) (h : Hand), h.isSurrendered = false →
        h.isBlackjack = true → payout hs a h = 3 * a) ∧
    (∀ (hs : Nat) (a : ℚ) (h : Hand), h.isSurrendered = false →
        h.isBlackjack = false → h.score ≤ 21 → (hs < h.score ∨ 21 < hs) →
        payout hs a h = (if h.isDoubleDown then a * 4 else a * 2)) ∧
    (∀ (hs : Nat) (a : ℚ) (h : Hand), h.isSurrendered = false →
        h.isBlackjack = false → hs = h.score → h.score ≤ 21 →
        payout hs a h = (if h.isDoubleDown then a * 2 else a)) ∧
    (∀ (hs : Nat) (a : ℚ) (h : Hand), h.isSurrendered = false →
        h.isBlackjack = false →
        ¬(h.score ≤ 21 ∧ (hs < h.score ∨ 21 < hs)) →
        ¬(hs = h.score ∧ h.score ≤ 21) → payout hs a h = 0) ∧
    payout 17 10 (Hand.mk [⟨.king, .spades, false⟩, ⟨.ace, .spades, false⟩]
        false false) = 30 := by
  refine ⟨?_, ?_, ?_, ?_, ?_, ?_⟩
  · intro hs a h hsur
    unfold payout
    rw [if_pos hsur]
  · intro hs a h hsur hbj
    unfold payout
    rw [if_neg (by simp [hsur]), if_pos ⟨score_of_isBlackjack hbj, hbj⟩]
  · intro hs a h hsur hbj h21 hw
    unfold payout
    rw [if_neg (by simp [hsur]), if_neg (by simp [hbj]), if_pos (by omega)]
  · intro hs a h hsur hbj heq h21
    unfold payout
    rw [if_neg (by simp [hsur]), if_neg (by simp [hbj]), if_neg (by omega),
      if_pos ⟨heq, h21⟩]
    cases hdd : h.isDoubleDown <;> simp
  · intro hs a h hsur hbj hw hp
    unfold payout
    rw [if_neg (by simp [hsur]), if_neg (by simp [hbj]), if_neg (by omega),
      if_neg hp]
  · unfold payout
    rw [if_neg (by decide), if_pos ⟨by decide, by decide⟩]
    norm_num

/-- Witness for `settlement_five_cases`: each of the five cases applied
at a concrete hand against a concrete dealer score, ante 10. -/
theorem settlement_five_cases_witness :
    payout 19 10 (Hand.mk [⟨.ten, .spades, false⟩, ⟨.nine, .spades, false⟩]
        false true) = (1 / 2) * 10 ∧
    payout 17 10 (Hand.mk [⟨.king, .spades, false⟩, ⟨.ace, .spades, false⟩]
        false false) = 3 * 10 ∧
    payout 17 10 (Hand.mk [⟨.ten, .spades, false⟩, ⟨.nine, .spades, false⟩]
        false false) = 10 * 2 ∧
    payout 19 10 (Hand.mk [⟨.ten, .spades, false⟩, ⟨.nine, .spades, false⟩]
        false false) = 10 ∧
    payout 20 10 (Hand.mk [⟨.ten, .spades, false⟩, ⟨.nine, .spades, false⟩]
        false false) = 0 :=
  ⟨settlement_five_cases.1 19 10 _ rfl,
   settlement_five_cases.2.1 17 10 _ rfl (by decide),
   settlement_five_cases.2.2.1 17 10 _ rfl (by decide) (by decide)
     (by decide),
   settlement_five_cases.2.2.2.1 19 10 _ rfl (by decide) (by decide)
     (by decide),
   settlement_five_cases.2.2.2.2.1 20 10 _ rfl (by decide) (by decide)
     (by decide)⟩

/-! ## Claim C5: double down -/

theorem drawCard_append (e : List Card) (c : Card) :
    drawCard (e ++ [c]) = some (c, e) := by
  unfold drawCard
  rw [List.getLast?_concat, List.dropLast_concat]

/-- Counterexample to claim C5: a DOUBLE_DOWN request on a 3-card hand
{10,7,5} is not rejected — the dispatch deducts the ante and mutates the
hand to four cards with `is_double_down` set, so neither the hand nor
the balance is left unchanged. -/
theorem double_down_claim_cex :
    stepMove 0 .double_down
        ⟨[Hand.mk [⟨.ten, .spades, false⟩, ⟨.seven, .spades, false⟩,
            ⟨.five, .spades, false⟩] false false], 100⟩
        [⟨.nine, .spades, false⟩]
      = some (⟨[Hand.mk [⟨.ten, .spades, false⟩, ⟨.seven, .spades, false⟩,
            ⟨.five, .spades, false⟩, ⟨.nine, .spades, false⟩] true false],
          (100 : ℚ) - BUY_IN_COST⟩, [], false) ∧
    (100 : ℚ) - BUY_IN_COST ≠ 100 :=
  ⟨rfl, by norm_num [BUY_IN_COST]⟩

/-- Amended claim C5: DOUBLE_DOWN is applied unconditionally — with no
check on the card count or earlier split/double — and then deducts one
ante unit, draws exactly one card, sets `is_double_down`, and ends the
hand's turn regardless of the resulting score. -/
theorem double_down_unconditional (p : PState) (i : Nat) (e : List Card)
    (c : Card) (h : Hand) (hh : p.hands[i]? = some h) :
    stepMove i .double_down p (e ++ [c])
        = some (⟨p.hands.set i (h.doubleDown c), p.coins - BUY_IN_COST⟩,
          e, false) ∧
    (h.doubleDown c).cards.length = h.cards.length + 1 ∧
    (h.doubleDown c).isDoubleDown = true := by
  refine ⟨?_, ?_, rfl⟩
  · unfold stepMove
    rw [hh, drawCard_append]
  · simp [Hand.doubleDown, Hand.addCard]

/-- Witness for `double_down_unconditional`: doubling the 2-card hand
{10,7} with the deck holding a 5. -/
theorem double_down_unconditional_witness :
    stepMove 0 .double_down
        ⟨[Hand.mk [⟨.ten, .spades, false⟩, ⟨.seven, .spades, false⟩]
            false false], 100⟩
        ([] ++ [⟨.five, .spades, false⟩])
      = some (⟨[Hand.mk [⟨.ten, .spades, false⟩, ⟨.seven, .spades, false⟩]
            false false].set 0
            ((Hand.mk [⟨.ten, .spades, false⟩, ⟨.seven, .spades, false⟩]
              false false).doubleDown ⟨.five, .spades, false⟩),
          (100 : ℚ) - BUY_IN_COST⟩, [], false) :=
  (double_down_unconditional ⟨[Hand.mk [⟨.ten, .spades, false⟩,
    ⟨.seven, .spades, false⟩] false false], 100⟩ 0 []
    ⟨.five, .spades, false⟩ _ rfl).1

/-! ## Claim C6: split — refill lemmas -/

theorem fillHand_of_ge (f : Nat) (h : Hand) (d : List Card)
    (hge : 2 ≤ h.cards.length) : fillHand f h d = some (h, d) := by
  cases f <;> · unfold fillHand; rw [if_neg (by omega)]

theorem fillHand_one (h : Hand) (e : List Card) (c : Card)
    (h1 : h.cards.length = 1) :
    fillHand 2 h (e ++ [c]) = some (h.addCard c, e) := by
  unfold fillHand
  rw [if_pos (by omega), drawCard_append]
  exact fillHand_of_ge 1 _ e (by simp [Hand.addCard]; omega)

theorem refillAll_append_ge (l1 rest : List Hand) (d : List Card)
    (hge : ∀ x ∈ l1, 2 ≤ x.cards.length) :
    refillAll (l1 ++ rest) d
      = (refillAll rest d).map (fun r => (l1 ++ r.1, r.2)) := by
  induction l1 with
  | nil => simp
  | cons x xs ih =>
    rw [List.cons_append]
    conv_lhs => rw [refillAll]
    rw [fillHand_of_ge 2 x d (hge x (by simp))]
    dsimp only
    rw [ih (fun y hy => hge y (by simp [hy]))]
    cases refillAll rest d with
    | none => rfl
    | some r => rfl

theorem refill_after_split (l1 l2 : List Hand) (a b : Hand)
    (e : List Card) (ca cb : Card)
    (hge1 : ∀ x ∈ l1, 2 ≤ x.cards.length)
    (hge2 : ∀ x ∈ l2, 2 ≤ x.cards.length)
    (ha : a.cards.length = 1) (hb : b.cards.length = 1) :
    refillAll (l1 ++ a :: (l2 ++ [b])) ((e ++ [cb]) ++ [ca])
      = some (l1 ++ (a.addCard ca) :: (l2 ++ [b.addCard cb]), e) := by
  have step2 : refillAll [b] (e ++ [cb]) = some ([b.addCard cb], e) := by
    conv_lhs => rw [refillAll]
    rw [fillHand_one b e cb hb]
    rfl
  have step1 : refillAll (a :: (l2 ++ [b])) ((e ++ [cb]) ++ [ca])
      = some ((a.addCard ca) :: (l2 ++ [b.addCard cb]), e) := by
    conv_lhs => rw [refillAll]
    rw [fillHand_one a (e ++ [cb]) ca ha]
    dsimp only
    rw [refillAll_append_ge l2 [b] _ hge2, step2]
    rfl
  rw [refillAll_append_ge l1 _ _ hge1, step1]
  rfl

/-! ## Claim C6: trace lemmas for hand coverage -/

theorem playOne_trace (σ : Hand → Move) (f i : Nat) (p : PState)
    (d : List Card) (tr tr' : List TraceEntry) (p' : PState)
    (d' : List Card)
    (hrun : playOne σ f i p d tr = some (p', d', tr')) :
    ∃ ent ext, ent.resolving = i ∧ tr' = tr ++ ent :: ext := by
  induction f generalizing p d tr with
  | zero => exact absurd hrun (by simp [playOne])
  | succ f ih =>
    rw [playOne] at hrun
    match h0 : p.hands[0]?, hi : p.hands[i]? with
    | none, _ => rw [h0] at hrun; exact absurd hrun (by simp)
    | some fst, none => rw [h0, hi] at hrun; exact absurd hrun (by simp)
    | some fst, some cur =>
      rw [h0, hi] at hrun
      simp only at hrun
      match hs : stepMove i (σ fst) p d with
      | none => rw [hs] at hrun; exact absurd hrun (by simp)
      | some (p1, d1, playing) =>
        rw [hs] at hrun
        simp only at hrun
        match hc : p1.hands[i]? with
        | none => rw [hc] at hrun; exact absurd hrun (by simp)
        | some cur' =>
          rw [hc] at hrun
          simp only at hrun
          by_cases hcont : (playing && decide (cur'.score ≤ 21)) = true
          · rw [if_pos hcont] at hrun
            obtain ⟨ent, ext, hres, htr⟩ := ih p1 d1 _ hrun
            exact ⟨⟨i, fst, cur, fst⟩, ent :: ext, rfl, by
              rw [htr, List.append_assoc]; rfl⟩
          · rw [if_neg hcont] at hrun
            simp only [Option.some.injEq, Prod.mk.injEq] at hrun
            obtain ⟨h1, h2, h3⟩ := hrun
            exact ⟨⟨i, fst, cur, fst⟩, [], rfl, h3.symm⟩

theorem playHands_cover (σ : Hand → Move) (f : Nat) :
    ∀ (i : Nat) (p : PState) (d : List Card) (tr tr' : List TraceEntry)
      (p' : PState) (d' : List Card),
      playHands σ f i p d tr = some (p', d', tr') →
      (∃ ext, tr' = tr ++ ext) ∧
      ∀ j, i ≤ j → j < p'.hands.length → ∃ e ∈ tr', e.resolving = j := by
  induction f with
  | zero => intro i p d tr tr' p' d' hrun; exact absurd hrun (by simp [playHands])
  | succ f ih =>
    intro i p d tr tr' p' d' hrun
    rw [playHands] at hrun
    by_cases hlt : i < p.hands.length
    · rw [if_pos hlt] at hrun
      match hone : playOne σ f i p d tr with
      | none => rw [hone] at hrun; exact absurd hrun (by simp)
      | some (p1, d1, tr1) =>
        rw [hone] at hrun
        simp only at hrun
        obtain ⟨ent, ext, hres, htr1⟩ := playOne_trace σ f i p d tr tr1 p1 d1 hone
        obtain ⟨⟨ext2, htr2⟩, hcov⟩ := ih (i + 1) p1 d1 tr1 tr' p' d' hrun
        refine ⟨⟨(ent :: ext) ++ ext2, by rw [htr2, htr1, List.append_assoc]⟩, ?_⟩
        intro j hij hjl
        rcases Nat.eq_or_lt_of_le hij with heq | hlt2
        · refine ⟨ent, ?_, heq ▸ hres⟩
          rw [htr2, htr1]
          simp
        · exact hcov j hlt2 hjl
    · rw [if_neg hlt] at hrun
      simp only [Option.some.injEq, Prod.mk.injEq] at hrun
      obtain ⟨hp, hd, htr⟩ := hrun
      refine ⟨⟨[], by rw [← htr, List.append_nil]⟩, ?_⟩
      intro j hij hjl
      rw [← hp] at hjl
      omega

theorem lt_length_of_getElem? {α : Type} {l : List α} {i : Nat} {a : α}
    (h : l[i]? = some a) : i < l.length := by
  by_contra hc
  rw [List.getElem?_eq_none_iff.mpr (by omega)] at h
  exact absurd h (by simp)

/-- Claim C6: the three observable guarantees of SPLIT.
First, a SPLIT request on a hand that is not splittable is rejected with
no change to the hand, the hand list, the balance or the deck, and the
turn continues.  Second, a SPLIT on a splittable 2-card hand [x, y]
(equal ranks) moves `y` into a new hand of the same player appended to
the hand list, deducts exactly one ante unit, and deals one card to each
of the two resulting hands so both end with exactly two cards (the other
hands, all holding at least two cards, receive nothing).  Third, every
hand index present at the end of the player's turn phase — including
hands appended by splits — received at least one decision request before
the phase finished. -/
theorem split_semantics :
    (∀ (p : PState) (i : Nat) (d : List Card) (cur : Hand),
      p.hands[i]? = some cur → cur.canSplit = false →
      stepMove i .split p d = some (p, d, true)) ∧
    (∀ (p : PState) (i : Nat) (e : List Card) (ca cb : Card) (x y : Card)
      (cur : Hand), p.hands[i]? = some cur → cur.cards = [x, y] →
      x.value = y.value → (∀ h ∈ p.hands, 2 ≤ h.cards.length) →
      stepMove i .split p ((e ++ [cb]) ++ [ca])
        = some (⟨p.hands.set i { cur with cards := [x, ca] }
            ++ [Hand.mk [y, cb] false false], p.coins - BUY_IN_COST⟩,
          e, true) ∧
      ({ cur with cards := [x, ca] } : Hand).cards.length = 2 ∧
      (Hand.mk [y, cb] false false).cards.length = 2 ∧
      (p.hands.set i { cur with cards := [x, ca] }
          ++ [Hand.mk [y, cb] false false]).length
        = p.hands.length + 1) ∧
    (∀ (σ : Hand → Move) (fuel : Nat) (p : PState) (d : List Card)
      (p' : PState) (d' : List Card) (tr' : List TraceEntry),
      playerTurn σ fuel p d = some (p', d', tr') →
      ∀ j, j < p'.hands.length → ∃ e ∈ tr', e.resolving = j) := by
  refine ⟨?_, ?_, ?_⟩
  · intro p i d cur hi hcs
    unfold stepMove
    rw [hi]
    dsimp only
    rw [if_neg (by simp [hcs])]
  · intro p i e ca cb x y cur hi hcards hval hge
    have hlen : i < p.hands.length := lt_length_of_getElem? hi
    have hcs : cur.canSplit = true := by
      simp [Hand.canSplit, hcards, hval]
    have hsplit : cur.split
        = some ({ cur with cards := [x] }, ⟨[y], false, false⟩) := by
      unfold Hand.split
      rw [if_pos hcs, hcards]
      rfl
    refine ⟨?_, rfl, rfl, by simp⟩
    unfold stepMove
    rw [hi]
    dsimp only
    rw [if_pos hcs, hsplit]
    dsimp only
    have hshape : p.hands.set i { cur with cards := [x] }
          ++ [(⟨[y], false, false⟩ : Hand)]
        = p.hands.take i ++ ({ cur with cards := [x] } : Hand) ::
            (p.hands.drop (i + 1) ++ [(⟨[y], false, false⟩ : Hand)]) := by
      rw [List.set_eq_take_cons_drop _ hlen]
      simp
    rw [hshape,
      refill_after_split (p.hands.take i) (p.hands.drop (i + 1))
        { cur with cards := [x] } ⟨[y], false, false⟩ e ca cb
        (fun z hz => hge z (List.mem_of_mem_take hz))
        (fun z hz => hge z (List.mem_of_mem_drop hz)) rfl rfl]
    rw [List.set_eq_take_cons_drop _ hlen]
    simp [Hand.addCard]
  · intro σ fuel p d p' d' tr' hrun j hj
    exact (playHands_cover σ fuel 0 p d [] tr' p' d' hrun).2 j
      (Nat.zero_le j) hj

/-- Witness for `split_semantics`: a rejected split on {7,8}, a
successful split on {7♠,7♥} drawing two nines, and — in a two-hand
always-stand turn — a decision request logged for the second hand. -/
theorem split_semantics_witness :
    stepMove 0 Move.split
        ⟨[Hand.mk [⟨.seven, .spades, false⟩, ⟨.eight, .spades, false⟩]
            false false], 100⟩ [⟨.nine, .spades, false⟩]
      = some (⟨[Hand.mk [⟨.seven, .spades, false⟩, ⟨.eight, .spades, false⟩]
            false false], 100⟩, [⟨.nine, .spades, false⟩], true) ∧
    stepMove 0 Move.split
        ⟨[Hand.mk [⟨.seven, .spades, false⟩, ⟨.seven, .hearts, false⟩]
            false false], 100⟩
        (([] ++ [⟨.nine, .spades, false⟩]) ++ [⟨.nine, .hearts, false⟩])
      = some (⟨[Hand.mk [⟨.seven, .spades, false⟩, ⟨.nine, .hearts, false⟩]
            false false,
          Hand.mk [⟨.seven, .hearts, false⟩, ⟨.nine, .spades, false⟩]
            false false], (100 : ℚ) - BUY_IN_COST⟩, [], true) ∧
    ∃ e ∈ [TraceEntry.mk 0
        (Hand.mk [⟨.ten, .spades, false⟩, ⟨.seven, .spades, false⟩]
          false false)
        (Hand.mk [⟨.ten, .spades, false⟩, ⟨.seven, .spades, false⟩]
          false false)
        (Hand.mk [⟨.ten, .spades, false⟩, ⟨.seven, .spades, false⟩]
          false false),
      TraceEntry.mk 1
        (Hand.mk [⟨.ten, .spades, false⟩, ⟨.seven, .spades, false⟩]
          false false)
        (Hand.mk [⟨.ace, .spades, false⟩, ⟨.five, .spades, false⟩]
          false false)
        (Hand.mk [⟨.ten, .spades, false⟩, ⟨.seven, .spades, false⟩]
          false false)], e.resolving = 1 :=
  ⟨split_semantics.1 ⟨[Hand.mk [⟨.seven, .spades, false⟩,
      ⟨.eight, .spades, false⟩] false false], 100⟩ 0
      [⟨.nine, .spades, false⟩] _ rfl rfl,
   (split_semantics.2.1 ⟨[Hand.mk [⟨.seven, .spades, false⟩,
      ⟨.seven, .hearts, false⟩] false false], 100⟩ 0 []
      ⟨.nine, .hearts, false⟩ ⟨.nine, .spades, false⟩
      ⟨.seven, .spades, false⟩ ⟨.seven, .hearts, false⟩ _ rfl rfl rfl
      (by decide)).1,
   split_semantics.2.2 (fun _ => Move.stand) 10
      ⟨[Hand.mk [⟨.ten, .spades, false⟩, ⟨.seven, .spades, false⟩]
          false false,
        Hand.mk [⟨.ace, .spades, false⟩, ⟨.five, .spades, false⟩]
          false false], 100⟩ []
      ⟨[Hand.mk [⟨.ten, .spades, false⟩, ⟨.seven, .spades, false⟩]
          false false,
        Hand.mk [⟨.ace, .spades, false⟩, ⟨.five, .spades, false⟩]
          false false], 100⟩ []
      [TraceEntry.mk 0
        (Hand.mk [⟨.ten, .spades, false⟩, ⟨.seven, .spades, false⟩]
          false false)
        (Hand.mk [⟨.ten, .spades, false⟩, ⟨.seven, .spades, false⟩]
          false false)
        (Hand.mk [⟨.ten, .spades, false⟩, ⟨.seven, .spades, false⟩]
          false false),
       TraceEntry.mk 1
        (Hand.mk [⟨.ten, .spades, false⟩, ⟨.seven, .spades, false⟩]
          false false)
        (Hand.mk [⟨.ace, .spades, false⟩, ⟨.five, .spades, false⟩]
          false false)
        (Hand.mk [⟨.ten, .spades, false⟩, ⟨.seven, .spades, false⟩]
          false false)] rfl 1 (by decide)⟩

/-! ## Claim C7: balance lemmas -/

theorem stepMove_coins (i : Nat) (mv : Move) (p : PState) (d : List Card)
    (p' : PState) (d' : List Card) (pl : Bool)
    (hsp : mv ≠ .split) (hdd : mv ≠ .double_down)
    (hstep : stepMove i mv p d = some (p', d', pl)) : p'.coins = p.coins := by
  unfold stepMove at hstep
  cases hi : p.hands[i]? with
  | none => rw [hi] at hstep; exact absurd hstep (by simp)
  | some cur =>
    rw [hi] at hstep
    cases mv with
    | hit =>
      cases hd : drawCard d with
      | none => rw [hd] at hstep; exact absurd hstep (by simp)
      | some r =>
        rw [hd] at hstep
        simp only [Option.some.injEq, Prod.mk.injEq] at hstep
        rw [← hstep.1]
    | split => exact absurd rfl hsp
    | double_down => exact absurd rfl hdd
    | stand =>
      simp only [Option.some.injEq, Prod.mk.injEq] at hstep
      rw [← hstep.1]
    | surrender =>
      simp only [Option.some.injEq, Prod.mk.injEq] at hstep
      rw [← hstep.1]
    | unknown =>
      simp only [Option.some.injEq, Prod.mk.injEq] at hstep
      rw [← hstep.1]

theorem playOne_coins (σ : Hand → Move) (f i : Nat)
    (hσ : ∀ h, σ h ≠ .split ∧ σ h ≠ .double_down) :
    ∀ (p : PState) (d : List Card) (tr : List TraceEntry) (p' : PState)
      (d' : List Card) (tr' : List TraceEntry),
      playOne σ f i p d tr = some (p', d', tr') → p'.coins = p.coins := by
  induction f with
  | zero => intro p d tr p' d' tr' hrun; exact absurd hrun (by simp [playOne])
  | succ f ih =>
    intro p d tr p' d' tr' hrun
    rw [playOne] at hrun
    match h0 : p.hands[0]?, hi : p.hands[i]? with
    | none, _ => rw [h0] at hrun; exact absurd hrun (by simp)
    | some fst, none => rw [h0, hi] at hrun; exact absurd hrun (by simp)
    | some fst, some cur =>
      rw [h0, hi] at hrun
      simp only at hrun
      match hs : stepMove i (σ fst) p d with
      | none => rw [hs] at hrun; exact absurd hrun (by simp)
      | some (p1, d1, playing) =>
        rw [hs] at hrun
        simp only at hrun
        have hco : p1.coins = p.coins :=
          stepMove_coins i (σ fst) p d p1 d1 playing (hσ fst).1 (hσ fst).2 hs
        match hc : p1.hands[i]? with
        | none => rw [hc] at hrun; exact absurd hrun (by simp)
        | some cur' =>
          rw [hc] at hrun
          simp only at hrun
          by_cases hcont : (playing && decide (cur'.score ≤ 21)) = true
          · rw [if_pos hcont] at hrun
            rw [ih p1 d1 _ p' d' tr' hrun, hco]
          · rw [if_neg hcont] at hrun
            simp only [Option.some.injEq, Prod.mk.injEq] at hrun
            rw [← hrun.1, hco]

theorem playHands_coins (σ : Hand → Move) (f : Nat)
    (hσ : ∀ h, σ h ≠ .split ∧ σ h ≠ .double_down) :
    ∀ (i : Nat) (p : PState) (d : List Card) (tr : List TraceEntry)
      (p' : PState) (d' : List Card) (tr' : List TraceEntry),
      playHands σ f i p d tr = some (p', d', tr') → p'.coins = p.coins := by
  induction f with
  | zero =>
    intro i p d tr p' d' tr' hrun
    exact absurd hrun (by simp [playHands])
  | succ f ih =>
    intro i p d tr p' d' tr' hrun
    rw [playHands] at hrun
    by_cases hlt : i < p.hands.length
    · rw [if_pos hlt] at hrun
      match hone : playOne σ f i p d tr with
      | none => rw [hone] at hrun; exact absurd hrun (by simp)
      | some (p1, d1, tr1) =>
        rw [hone] at hrun
        simp only at hrun
        rw [ih (i + 1) p1 d1 tr1 p' d' tr' hrun,
          playOne_coins σ f i hσ p d tr p1 d1 tr1 hone]
    · rw [if_neg hlt] at hrun
      simp only [Option.some.injEq, Prod.mk.injEq] at hrun
      rw [← hrun.1]

theorem payout_nonneg (hs : Nat) (a : ℚ) (h : Hand) (ha : 0 ≤ a) :
    0 ≤ payout hs a h := by
  unfold payout
  split_ifs <;> linarith

theorem payout_int (hs : Nat) (h : Hand) :
    ∃ m : ℤ, payout hs BUY_IN_COST h = (m : ℚ) := by
  unfold payout BUY_IN_COST
  split_ifs
  · exact ⟨5, by norm_num⟩
  · exact ⟨30, by norm_num⟩
  · exact ⟨40, by norm_num⟩
  · exact ⟨20, by norm_num⟩
  · exact ⟨20, by norm_num⟩
  · exact ⟨10, by norm_num⟩
  · exact ⟨0, by norm_num⟩

theorem payoutSum_nonneg (hs : Nat) (l : List Hand) :
    0 ≤ (l.map (payout hs BUY_IN_COST)).sum := by
  apply List.sum_nonneg
  intro x hx
  obtain ⟨h, -, hh⟩ := List.mem_map.mp hx
  rw [← hh]
  exact payout_nonneg hs BUY_IN_COST h (by norm_num [BUY_IN_COST])

theorem payoutSum_int (hs : Nat) (l : List Hand) :
    ∃ m : ℤ, (l.map (payout hs BUY_IN_COST)).sum = (m : ℚ) := by
  induction l with
  | nil => exact ⟨0, by simp⟩
  | cons h t ih =>
    obtain ⟨m, hm⟩ := ih
    obtain ⟨m0, hm0⟩ := payout_int hs h
    exact ⟨m0 + m, by push_cast; simp [hm, hm0]⟩

/-- Counterexample to claim C7: a player starting the round with a
non-negative integer balance of 10 pays the 10-chip ante, then doubles
down (no funds check) for another 10, busts with {10,9,5}, and is paid
nothing at settlement — ending the round at −10, a negative balance. -/
theorem round_negative_balance_cex :
    (playRoundSolo (fun _ => Move.double_down) 20 10
        [⟨.nine, .hearts, false⟩, ⟨.five, .spades, false⟩,
         ⟨.nine, .spades, false⟩, ⟨.ten, .hearts, false⟩,
         ⟨.ten, .spades, false⟩]).map RoundOut.coins
      = some (10 - BUY_IN_COST - BUY_IN_COST +
          (payout 19 BUY_IN_COST (Hand.mk [⟨.ten, .spades, false⟩,
            ⟨.nine, .spades, false⟩, ⟨.five, .spades, false⟩] true false)
            + 0)) ∧
    10 - BUY_IN_COST - BUY_IN_COST +
        (payout 19 BUY_IN_COST (Hand.mk [⟨.ten, .spades, false⟩,
          ⟨.nine, .spades, false⟩, ⟨.five, .spades, false⟩] true false) + 0)
      = (-10 : ℚ) := by
  constructor
  · rfl
  · have hz : payout 19 BUY_IN_COST (Hand.mk [⟨.ten, .spades, false⟩,
        ⟨.nine, .spades, false⟩, ⟨.five, .spades, false⟩] true false) = 0 := by
      unfold payout
      rw [if_neg (by decide), if_neg (by decide), if_neg (by decide),
        if_neg (by decide)]
    rw [hz]
    norm_num [BUY_IN_COST]

/-- Amended claim C7: in a round whose player never splits nor doubles
down, a starting balance that is an integer at least the buy-in ends the
round as a non-negative integer: the only deduction is the ante
(guarded by the buy-in check) and every settlement credit is a
non-negative integer number of chips.  (With a split or double-down the
balance can end negative, as the counterexample shows.) -/
theorem round_balance_nonneg_without_extra_bets
    (σ : Hand → Move) (fuel : Nat) (k : ℤ) (d : List Card) (out : RoundOut)
    (hσ : ∀ h, σ h ≠ .split ∧ σ h ≠ .double_down)
    (hc : BUY_IN_COST ≤ (k : ℚ))
    (hrun : playRoundSolo σ fuel (k : ℚ) d = some out) :
    0 ≤ out.coins ∧ ∃ m : ℤ, out.coins = (m : ℚ) := by
  unfold playRoundSolo at hrun
  rw [if_neg (not_lt.mpr hc)] at hrun
  cases h1 : drawCard d with
  | none => rw [h1] at hrun; exact absurd hrun (by simp)
  | some r1 =>
    obtain ⟨c1, d1⟩ := r1
    rw [h1] at hrun
    dsimp only at hrun
    cases h2 : drawCard d1 with
    | none => rw [h2] at hrun; exact absurd hrun (by simp)
    | some r2 =>
      obtain ⟨ch1, d2⟩ := r2
      rw [h2] at hrun
      dsimp only at hrun
      cases h3 : drawCard d2 with
      | none => rw [h3] at hrun; exact absurd hrun (by simp)
      | some r3 =>
        obtain ⟨c2, d3⟩ := r3
        rw [h3] at hrun
        dsimp only at hrun
        cases h4 : playerTurn σ fuel
            ⟨[⟨[c1, c2], false, false⟩], (k : ℚ) - BUY_IN_COST⟩ d3 with
        | none => rw [h4] at hrun; exact absurd hrun (by simp)
        | some r4 =>
          obtain ⟨p, d4, tr⟩ := r4
          rw [h4] at hrun
          dsimp only at hrun
          cases h5 : drawCard d4 with
          | none => rw [h5] at hrun; exact absurd hrun (by simp)
          | some r5 =>
            obtain ⟨ch2, d5⟩ := r5
            rw [h5] at hrun
            dsimp only at hrun
            cases h6 : dealerPlay fuel ⟨[ch1, ch2], false, false⟩ d5 with
            | none => rw [h6] at hrun; exact absurd hrun (by simp)
            | some r6 =>
              obtain ⟨house, d6⟩ := r6
              rw [h6] at hrun
              dsimp only at hrun
              simp only [Option.some.injEq] at hrun
              unfold playerTurn at h4
              have hpc : p.coins = (k : ℚ) - BUY_IN_COST :=
                playHands_coins σ fuel hσ 0 _ d3 [] p d4 tr h4
              have hnn := payoutSum_nonneg house.score p.hands
              obtain ⟨m, hm⟩ := payoutSum_int house.score p.hands
              rw [← hrun]
              dsimp only
              constructor
              · rw [hpc]
                linarith [hnn, hc, show (BUY_IN_COST : ℚ) = 10 from rfl]
              · refine ⟨k - 10 + m, ?_⟩
                rw [hpc, hm]
                unfold BUY_IN_COST
                push_cast
                ring

/-- Witness for `round_balance_nonneg_without_extra_bets`: an
always-stand player with exactly 10 chips pushes 19 against 19 and ends
the round with a non-negative integer balance. -/
theorem round_balance_nonneg_witness :
    0 ≤ (RoundOut.mk
        ((10 : ℚ) - BUY_IN_COST +
          (payout 19 BUY_IN_COST
            (Hand.mk [⟨.ten, .spades, false⟩, ⟨.nine, .spades, false⟩]
              false false) + 0))
        [Hand.mk [⟨.ten, .spades, false⟩, ⟨.nine, .spades, false⟩]
          false false]
        (Hand.mk [⟨.ten, .hearts, false⟩, ⟨.nine, .hearts, false⟩]
          false false) []
        [TraceEntry.mk 0
          (Hand.mk [⟨.ten, .spades, false⟩, ⟨.nine, .spades, false⟩]
            false false)
          (Hand.mk [⟨.ten, .spades, false⟩, ⟨.nine, .spades, false⟩]
            false false)
          (Hand.mk [⟨.ten, .spades, false⟩, ⟨.nine, .spades, false⟩]
            false false)]).coins ∧
    ∃ m : ℤ, (RoundOut.mk
        ((10 : ℚ) - BUY_IN_COST +
          (payout 19 BUY_IN_COST
            (Hand.mk [⟨.ten, .spades, false⟩, ⟨.nine, .spades, false⟩]
              false false) + 0))
        [Hand.mk [⟨.ten, .spades, false⟩, ⟨.nine, .spades, false⟩]
          false false]
        (Hand.mk [⟨.ten, .hearts, false⟩, ⟨.nine, .hearts, false⟩]
          false false) []
        [TraceEntry.mk 0
          (Hand.mk [⟨.ten, .spades, false⟩, ⟨.nine, .spades, false⟩]
            false false)
          (Hand.mk [⟨.ten, .spades, false⟩, ⟨.nine, .spades, false⟩]
            false false)
          (Hand.mk [⟨.ten, .spades, false⟩, ⟨.nine, .spades, false⟩]
            false false)]).coins = (m : ℚ) :=
  round_balance_nonneg_without_extra_bets (fun _ => Move.stand) 20 10
    [⟨.nine, .hearts, false⟩, ⟨.nine, .spades, false⟩,
     ⟨.ten, .hearts, false⟩, ⟨.ten, .spades, false⟩] _
    (fun _ => ⟨fun hc => Move.noConfusion hc, fun hc => Move.noConfusion hc⟩)
    (by norm_num [BUY_IN_COST]) rfl

/-! ## Claim C8: which hand the decision policy receives -/

theorem playOne_queried (σ : Hand → Move) (f i : Nat) :
    ∀ (p : PState) (d : List Card) (tr : List TraceEntry) (p' : PState)
      (d' : List Card) (tr' : List TraceEntry),
      (∀ e ∈ tr, e.queried = e.first) →
      playOne σ f i p d tr = some (p', d', tr') →
      ∀ e ∈ tr', e.queried = e.first := by
  induction f with
  | zero =>
    intro p d tr p' d' tr' hinv hrun
    exact absurd hrun (by simp [playOne])
  | succ f ih =>
    intro p d tr p' d' tr' hinv hrun
    have hinv' : ∀ (fst cur : Hand),
        ∀ e ∈ tr ++ [TraceEntry.mk i fst cur fst], e.queried = e.first := by
      intro fst cur e he
      rcases List.mem_append.mp he with hin | hin
      · exact hinv e hin
      · rw [List.mem_singleton.mp hin]
    rw [playOne] at hrun
    match h0 : p.hands[0]?, hi : p.hands[i]? with
    | none, _ => rw [h0] at hrun; exact absurd hrun (by simp)
    | some fst, none => rw [h0, hi] at hrun; exact absurd hrun (by simp)
    | some fst, some cur =>
      rw [h0, hi] at hrun
      simp only at hrun
      match hs : stepMove i (σ fst) p d with
      | none => rw [hs] at hrun; exact absurd hrun (by simp)
      | some (p1, d1, playing) =>
        rw [hs] at hrun
        simp only at hrun
        match hc : p1.hands[i]? with
        | none => rw [hc] at hrun; exact absurd hrun (by simp)
        | some cur' =>
          rw [hc] at hrun
          simp only at hrun
          by_cases hcont : (playing && decide (cur'.score ≤ 21)) = true
          · rw [if_pos hcont] at hrun
            exact ih p1 d1 _ p' d' tr' (hinv' fst cur) hrun
          · rw [if_neg hcont] at hrun
            simp only [Option.some.injEq, Prod.mk.injEq] at hrun
            rw [← hrun.2.2]
            exact hinv' fst cur

theorem playHands_queried (σ : Hand → Move) (f : Nat) :
    ∀ (i : Nat) (p : PState) (d : List Card) (tr : List TraceEntry)
      (p' : PState) (d' : List Card) (tr' : List TraceEntry),
      (∀ e ∈ tr, e.queried = e.first) →
      playHands σ f i p d tr = some (p', d', tr') →
      ∀ e ∈ tr', e.queried = e.first := by
  induction f with
  | zero =>
    intro i p d tr p' d' tr' hinv hrun
    exact absurd hrun (by simp [playHands])
  | succ f ih =>
    intro i p d tr p' d' tr' hinv hrun
    rw [playHands] at hrun
    by_cases hlt : i < p.hands.length
    · rw [if_pos hlt] at hrun
      match hone : playOne σ f i p d tr with
      | none => rw [hone] at hrun; exact absurd hrun (by simp)
      | some (p1, d1, tr1) =>
        rw [hone] at hrun
        simp only at hrun
        exact ih (i + 1) p1 d1 tr1 p' d' tr'
          (playOne_queried σ f i p d tr p1 d1 tr1 hinv hone) hrun
    · rw [if_neg hlt] at hrun
      simp only [Option.some.injEq, Prod.mk.injEq] at hrun
      rw [← hrun.2.2]
      exact hinv

/-- Counterexample to claim C8: a player holding the two hands {10} and
{5} plays both to terminal under an always-stand policy; the decision
request for the second hand (index 1) passes the FIRST hand {10} to the
policy, not the hand {5} being resolved — `queried ≠ current` on the
second trace entry. -/
theorem decision_request_claim_cex :
    playerTurn (fun _ => Move.stand) 10
        ⟨[Hand.mk [⟨.ten, .spades, false⟩] false false,
          Hand.mk [⟨.five, .spades, false⟩] false false], 0⟩ []
      = some (⟨[Hand.mk [⟨.ten, .spades, false⟩] false false,
          Hand.mk [⟨.five, .spades, false⟩] false false], 0⟩, [],
        [TraceEntry.mk 0 (Hand.mk [⟨.ten, .spades, false⟩] false false)
          (Hand.mk [⟨.ten, .spades, false⟩] false false)
          (Hand.mk [⟨.ten, .spades, false⟩] false false),
         TraceEntry.mk 1 (Hand.mk [⟨.ten, .spades, false⟩] false false)
          (Hand.mk [⟨.five, .spades, false⟩] false false)
          (Hand.mk [⟨.ten, .spades, false⟩] false false)]) ∧
    (TraceEntry.mk 1 (Hand.mk [⟨.ten, .spades, false⟩] false false)
        (Hand.mk [⟨.five, .spades, false⟩] false false)
        (Hand.mk [⟨.ten, .spades, false⟩] false false)).queried
      ≠ (TraceEntry.mk 1 (Hand.mk [⟨.ten, .spades, false⟩] false false)
        (Hand.mk [⟨.five, .spades, false⟩] false false)
        (Hand.mk [⟨.ten, .spades, false⟩] false false)).current :=
  ⟨rfl, by decide⟩

/-- Amended claim C8: every decision request made during the player-turn
phase passes the player's FIRST hand (`player.hands[0]` as it stands at
the moment of the request) to the decision policy, for every hand being
resolved — so the policy sees the hand it is deciding for only when that
hand is the first one. -/
theorem decision_requests_use_first_hand (σ : Hand → Move) (fuel : Nat)
    (p : PState) (d : List Card) (p' : PState) (d' : List Card)
    (tr' : List TraceEntry)
    (hrun : playerTurn σ fuel p d = some (p', d', tr')) :
    ∀ e ∈ tr', e.queried = e.first := by
  unfold playerTurn at hrun
  exact playHands_queried σ fuel 0 p d [] p' d' tr' (by simp) hrun

/-- Witness for `decision_requests_use_first_hand`: in the two-hand
always-stand run, the request logged for the second hand did pass the
first hand. -/
theorem decision_requests_use_first_hand_witness :
    (TraceEntry.mk 1 (Hand.mk [⟨.ten, .spades, false⟩] false false)
        (Hand.mk [⟨.five, .spades, false⟩] false false)
        (Hand.mk [⟨.ten, .spades, false⟩] false false)).queried
      = (TraceEntry.mk 1 (Hand.mk [⟨.ten, .spades, false⟩] false false)
        (Hand.mk [⟨.five, .spades, false⟩] false false)
        (Hand.mk [⟨.ten, .spades, false⟩] false false)).first :=
  decision_requests_use_first_hand (fun _ => Move.stand) 10
    ⟨[Hand.mk [⟨.ten, .spades, false⟩] false false,
      Hand.mk [⟨.five, .spades, false⟩] false false], 0⟩ []
    ⟨[Hand.mk [⟨.ten, .spades, false⟩] false false,
      Hand.mk [⟨.five, .spades, false⟩] false false], 0⟩ []
    [TraceEntry.mk 0 (Hand.mk [⟨.ten, .spades, false⟩] false false)
      (Hand.mk [⟨.ten, .spades, false⟩] false false)
      (Hand.mk [⟨.ten, .spades, false⟩] false false),
     TraceEntry.mk 1 (Hand.mk [⟨.ten, .spades, false⟩] false false)
      (Hand.mk [⟨.five, .spades, false⟩] false false)
      (Hand.mk [⟨.ten, .spades, false⟩] false false)] rfl _ (by simp)

/-! ## Claim C9: deck exhaustion -/

theorem length_initialBackupDeck (n : Nat) :
    (initialBackupDeck n).length = 52 * n := by
  induction n with
  | zero => rfl
  | succ n ih =>
    show ((List.replicate (n + 1) generateBackupPile).flatten).length
      = 52 * (n + 1)
    rw [List.replicate_succ, List.flatten_cons, List.length_append]
    have h52 : generateBackupPile.length = 52 := rfl
    have hrest : ((List.replicate n generateBackupPile).flatten).length
        = 52 * n := ih
    rw [h52, hrest]
    ring

theorem drawManyLocal_empties :
    ∀ (n : Nat) (d : List Card), d.length = n → drawManyLocal n d = [] := by
  intro n
  induction n with
  | zero =>
    intro d hd
    rw [List.length_eq_zero.mp hd]
    rfl
  | succ n ih =>
    intro d hd
    cases hL : d.getLast? with
    | none =>
      rw [List.getLast?_eq_none_iff.mp hL] at hd
      simp at hd
    | some c =>
      have hstep : (deckpyDrawLocal d).2 = d.dropLast := by
        unfold deckpyDrawLocal drawCard
        rw [hL]
      rw [drawManyLocal, hstep]
      exact ih _ (by rw [List.length_dropLast, hd]; omega)

set_option maxRecDepth 8000 in
/-- Counterexample to claim C9: the deck actually used by the game
(blackjack.py's `Deck`, always in local mode since the remote request in
its constructor is commented out) raises `IndexError` when the local
pile is exhausted — here, after all 52 cards of a one-deck supply are
drawn — instead of returning the absent-card signal. -/
theorem empty_draw_raises_cex :
    bjDrawLocal (drawManyLocal (52 * 1) (initialBackupDeck 1))
      = Except.error PyExc.indexError := rfl

/-- Amended claim C9: a supply of `deckCount` decks holds `52×deckCount`
cards, and drawing that many cards empties any pile of that size.  On
the empty supply, deck.py's `draw_card` returns the absent signal
(`None`), but blackjack.py's `draw_card` raises `IndexError` instead. -/
theorem deck_exhaustion (n : Nat) (d : List Card)
    (hd : d.length = 52 * n) :
    (initialBackupDeck n).length = 52 * n ∧
    drawManyLocal (52 * n) d = [] ∧
    deckpyDrawLocal (drawManyLocal (52 * n) d) = (none, []) ∧
    bjDrawLocal [] = Except.error PyExc.indexError := by
  refine ⟨length_initialBackupDeck n, drawManyLocal_empties _ d hd, ?_, rfl⟩
  rw [drawManyLocal_empties _ d hd]
  rfl

set_option maxRecDepth 8000 in
/-- Witness for `deck_exhaustion`: one freshly generated deck of 52
cards, drawn down to empty. -/
theorem deck_exhaustion_witness :
    drawManyLocal (52 * 1) (initialBackupDeck 1) = [] ∧
    deckpyDrawLocal (drawManyLocal (52 * 1) (initialBackupDeck 1))
      = (none, []) :=
  ⟨(deck_exhaustion 1 (initialBackupDeck 1) rfl).2.1,
   (deck_exhaustion 1 (initialBackupDeck 1) rfl).2.2.1⟩

/-! ## Claim C10: remote draw failure handling -/

/-- Counterexample to claim C10: with a remote session held, a network
failure during the draw request propagates out of blackjack.py's
`draw_card` as an exception (the `except KeyError or ... ` clause only
catches `KeyError`), rather than falling back to the local pile. -/
theorem remote_failure_claim_cex :
    bjDrawRemote .netError (initialBackupDeck 1)
      = Except.error PyExc.requestException := rfl

/-- Amended claim C10: with a remote session held, the only failure that
falls back to popping the local pile is a remote-drawn card that is
missing from the local pile; a response with an empty card list returns
`None` with no fallback in blackjack.py and raises `IndexError` in
deck.py; and network errors, malformed bodies and missing response keys
all propagate as exceptions in both implementations. -/
theorem remote_draw_failure_modes :
    (∀ pile, bjDrawRemote .netError pile
        = Except.error PyExc.requestException) ∧
    (∀ pile, bjDrawRemote .badJson pile = Except.error PyExc.valueError) ∧
    (∀ pile, bjDrawRemote .noCardsKey pile = Except.error PyExc.keyError) ∧
    (∀ pile, bjDrawRemote (.respCards []) pile = Except.ok (none, pile)) ∧
    (∀ (c : Card) (cs pile : List Card), pyContains pile c = true →
        bjDrawRemote (.respCards (c :: cs)) pile
          = Except.ok (some c, pyRemove pile c)) ∧
    (∀ (c : Card) (cs e : List Card) (last : Card),
        pyContains (e ++ [last]) c = false →
        bjDrawRemote (.respCards (c :: cs)) (e ++ [last])
          = Except.ok (some last, e)) ∧
    (∀ pile, deckpyDrawRemote .netError pile
        = Except.error PyExc.requestException) ∧
    (∀ pile, deckpyDrawRemote (.respCards []) pile
        = Except.error PyExc.indexError) ∧
    (∀ (c : Card) (cs e : List Card) (last : Card),
        pyContains (e ++ [last]) c = false →
        deckpyDrawRemote (.respCards (c :: cs)) (e ++ [last])
          = Except.ok (some last, e)) := by
  refine ⟨fun _ => rfl, fun _ => rfl, fun _ => rfl, fun _ => rfl,
    ?_, ?_, fun _ => rfl, fun _ => rfl, ?_⟩
  · intro c cs pile hmem
    unfold bjDrawRemote
    dsimp only
    rw [if_pos hmem]
  · intro c cs e last hmem
    unfold bjDrawRemote
    dsimp only
    rw [if_neg (by simp [hmem]), drawCard_append]
  · intro c cs e last hmem
    unfold deckpyDrawRemote
    dsimp only
    rw [if_neg (by simp [hmem]), drawCard_append]

/-- Witness for `remote_draw_failure_modes`: a remote two of spades that
is present in the local pile is removed from it; a remote ace that is
absent from the two-card pile triggers the local-pop fallback in both
implementations. -/
theorem remote_draw_failure_modes_witness :
    bjDrawRemote (.respCards [⟨.two, .spades, false⟩])
        [⟨.two, .spades, false⟩, ⟨.three, .spades, false⟩]
      = Except.ok (some ⟨.two, .spades, false⟩,
          pyRemove [⟨.two, .spades, false⟩, ⟨.three, .spades, false⟩]
            ⟨.two, .spades, false⟩) ∧
    bjDrawRemote (.respCards [⟨.ace, .spades, false⟩])
        ([⟨.two, .spades, false⟩] ++ [⟨.three, .spades, false⟩])
      = Except.ok (some ⟨.three, .spades, false⟩,
          [⟨.two, .spades, false⟩]) ∧
    deckpyDrawRemote (.respCards [⟨.ace, .spades, false⟩])
        ([⟨.two, .spades, false⟩] ++ [⟨.three, .spades, false⟩])
      = Except.ok (some ⟨.three, .spades, false⟩,
          [⟨.two, .spades, false⟩]) :=
  ⟨remote_draw_failure_modes.2.2.2.2.1 ⟨.two, .spades, false⟩ []
      [⟨.two, .spades, false⟩, ⟨.three, .spades, false⟩] rfl,
   remote_draw_failure_modes.2.2.2.2.2.1 ⟨.ace, .spades, false⟩ []
      [⟨.two, .spades, false⟩] ⟨.three, .spades, false⟩ rfl,
   remote_draw_failure_modes.2.2.2.2.2.2.2.2 ⟨.ace, .spades, false⟩ []
      [⟨.two, .spades, false⟩] ⟨.three, .spades, false⟩ rfl⟩

end Blackjack
